import Mathlib

/-!
# Verification of the SSE stream reader (`useSSE` / `connectSSE`)

Shallow embedding of the Server-Sent-Events stream reader implemented in
`src/frontend/src/main.tsx` (the `useSSE` hook and its inner `connectSSE`
async function).  JavaScript strings are modelled as `List Char` (the
decoded text of the stream; the `TextDecoder` with `stream: true` is the
identity on this model, since chunks are already text).  `JSON.parse`
composed with the field reads `update.type`, `update.message`,
`update.result` is an external library call; it is modelled by a parse
oracle `parse : List Char → Option Update`, where `none` means
`JSON.parse` threw and `Update` records the three fields the reader
inspects (`result` only through its JavaScript truthiness, which is all
the code tests with `update.result ? ...`).

The observable behaviour of one session is a transcript state:
every `setData` call in order (`dataCalls`), every `setError` call
(`errorCalls`), the `isComplete` and `isConnected` React states, the
invocations of the `onComplete` and `onError` callbacks, and whether
`reader.cancel()` has been called (`cancelled`).

The source's `break` statements inside the `for (const line of lines)`
loop are modelled by the `cancelled` flag: in the source every `break` is
immediately preceded by `reader.cancel()`, and the loop is only entered
with the reader not yet cancelled, so "stop at the first line that
cancels" is exactly the loop's behaviour.  After `reader.cancel()` the
next `await reader.read()` resolves with `done: true`, so the outer
`while (true)` loop consumes no further chunks; this is the `cancelled`
guard in `processEvents`.
-/

set_option autoImplicit false
set_option maxRecDepth 4000

namespace SSE

/-- The fields of a parsed frame that `connectSSE` inspects:
`update.type`, `update.message` (absent/null modelled as `none`), and the
JavaScript truthiness of `update.result`. -/
structure Update where
  type : Option String
  message : Option String
  resultTruthy : Bool
deriving DecidableEq, Repr

/-- JavaScript `m || d` for an optional string `m`: the default is used
when the field is absent, `null`, or the empty string (all falsy). -/
def jsOr (m : Option String) (d : String) : String :=
  match m with
  | some s => if s = "" then d else s
  | none => d

/-- The literal prefix `"data: "` tested by `line.startsWith('data: ')`. -/
def dataHeader : List Char := "data: ".data

/-- The fixed message of `setError('Failed to parse progress update')`. -/
def parseFailMsg : String := "Failed to parse progress update"

/-- The fallback in `update.message || 'Analysis failed'`. -/
def defaultErrMsg : String := "Analysis failed"

/-- The message of the error thrown on a non-2xx response:
`` `HTTP ${response.status}: ${response.statusText}` ``. -/
def httpErrorMsg (status : Nat) (statusText : String) : String :=
  "HTTP " ++ toString status ++ ": " ++ statusText

/-- The transcript of one streaming session: the React state writes, the
callback invocations, and the reader's internal line-assembly buffer and
cancellation flag. -/
structure SSEState where
  /-- `let buffer = ''` — text after the last newline seen so far. -/
  buffer : List Char
  /-- every `setData(update)` argument, in order -/
  dataCalls : List Update
  /-- the `isComplete` React state -/
  isComplete : Bool
  /-- every `setError(...)` argument, in order -/
  errorCalls : List String
  /-- every `onComplete(update.result)` invocation, recorded as the frame -/
  completeCbCalls : List Update
  /-- every `onError(msg)` argument, in order -/
  errorCbCalls : List String
  /-- the `isConnected` React state -/
  connected : Bool
  /-- whether `reader.cancel()` has been called -/
  cancelled : Bool
deriving DecidableEq, Repr

/-- The state after the hook's reset (`setData(null)` etc.), before the
fetch resolves. -/
def initState : SSEState :=
  { buffer := [], dataCalls := [], isComplete := false, errorCalls := []
    completeCbCalls := [], errorCbCalls := [], connected := false
    cancelled := false }

/-- One iteration of `for (const line of lines)`: the prefix test, the
`JSON.parse` of `line.slice(6)`, the `setData`, and the dispatch on
`update.type` (`'complete'` / `'error'` / anything else), including the
`catch` that maps a parse failure to `setError('Failed to parse progress
update')`.  Every path that `break`s has just called `reader.cancel()`,
recorded in `cancelled`. -/
def processLine (parse : List Char → Option Update) (st : SSEState)
    (line : List Char) : SSEState :=
  if dataHeader.isPrefixOf line then
    match parse (line.drop 6) with
    | some update =>
      let st1 := { st with dataCalls := st.dataCalls ++ [update] }
      if update.type = some "complete" then
        let st2 := { st1 with isComplete := true, cancelled := true }
        if update.resultTruthy then
          { st2 with completeCbCalls := st2.completeCbCalls ++ [update] }
        else st2
      else if update.type = some "error" then
        let msg := jsOr update.message defaultErrMsg
        { st1 with errorCalls := st1.errorCalls ++ [msg]
                   cancelled := true
                   errorCbCalls := st1.errorCbCalls ++ [msg] }
      else st1
    | none =>
      { st with errorCalls := st.errorCalls ++ [parseFailMsg], cancelled := true }
  else st

/-- The `for (const line of lines)` loop: lines are processed in order
until one of them `break`s (i.e. cancels the reader). -/
def processLines (parse : List Char → Option Update) :
    SSEState → List (List Char) → SSEState
  | st, [] => st
  | st, l :: ls =>
    if st.cancelled then st
    else processLines parse (processLine parse st l) ls

/-- `buffer.split('\n')`: JavaScript `String.prototype.split` with a
single-character separator. -/
def splitLines : List Char → List (List Char)
  | [] => [[]]
  | c :: cs =>
    if c = '\n' then [] :: splitLines cs
    else
      match splitLines cs with
      | [] => [[c]]
      | l :: ls => (c :: l) :: ls

/-- One iteration of the `while (true)` read loop body on a non-`done`
chunk: `buffer += decoder.decode(value, {stream: true})`, then
`const lines = buffer.split('\n'); buffer = lines.pop() || ''`, then the
line loop. -/
def processChunk (parse : List Char → Option Update) (st : SSEState)
    (chunk : List Char) : SSEState :=
  let parts := splitLines (st.buffer ++ chunk)
  processLines parse { st with buffer := parts.getLastD [] } parts.dropLast

/-- What `await reader.read()` can deliver: a text chunk, an
`AbortError` (the caller aborted the session), or a network error
thrown by the transport.  The end of the list is `done: true`. -/
inductive ReadEvent where
  | chunk (s : List Char)
  | aborted
  | netError (msg : String)
deriving DecidableEq, Repr

/-- The `while (true)` read loop with the surrounding `try`/`catch`:
after `reader.cancel()` the next read resolves `done`, so the loop stops;
`done` simply breaks; an `AbortError` returns silently; any other thrown
error lands in the `catch` block (`setError(err.message || 'Connection
failed')`, `setIsConnected(false)`, and `onError` unless `isComplete`). -/
def processEvents (parse : List Char → Option Update) :
    SSEState → List ReadEvent → SSEState
  | st, [] => st
  | st, e :: rest =>
    if st.cancelled then st
    else
      match e with
      | .chunk s => processEvents parse (processChunk parse st s) rest
      | .aborted => st
      | .netError msg =>
        let m := if msg = "" then "Connection failed" else msg
        { st with errorCalls := st.errorCalls ++ [m]
                  connected := false
                  errorCbCalls :=
                    if st.isComplete then st.errorCbCalls
                    else st.errorCbCalls ++ [m] }

/-- The `fetch` response as `connectSSE` inspects it. -/
structure Response where
  ok : Bool
  status : Nat
  statusText : String
deriving DecidableEq, Repr

/-- The whole of `connectSSE`: on `!response.ok` the thrown
`` `HTTP ${status}: ${statusText}` `` error is caught by the same
`catch` block (`setError`, `setIsConnected(false)`, `onError` since
`isComplete` is still false); otherwise `setIsConnected(true)` and the
read loop runs over the body's events. -/
def connectSSE (parse : List Char → Option Update) (resp : Response)
    (events : List ReadEvent) : SSEState :=
  if resp.ok then
    processEvents parse { initState with connected := true } events
  else
    let m := httpErrorMsg resp.status resp.statusText
    { initState with errorCalls := [m], connected := false
                     errorCbCalls := [m] }

/-- A successful `200 OK` response, for concrete runs. -/
def respOK : Response := { ok := true, status := 200, statusText := "OK" }

/-- The wire form of one frame: `data: ` + payload + `\n`. -/
def frameLine (payload : List Char) : List Char :=
  dataHeader ++ payload ++ ['\n']

/-- The text of a well-formed frame sequence with the given payloads. -/
def framesText (payloads : List (List Char)) : List Char :=
  (payloads.map frameLine).flatten

/-- Prepending text to the first piece of a line split (used to describe
how `splitLines` acts on an append). -/
def consHead (pre : List Char) : List (List Char) → List (List Char)
  | [] => [pre]
  | h :: t => (pre ++ h) :: t

/-- Setting the line-assembly buffer, leaving the transcript alone. -/
def setBuf (st : SSEState) (b : List Char) : SSEState := { st with buffer := b }

/-- Forgetting the line-assembly buffer (the only state component that is
not observable through the hook's outputs). -/
def clearBuf (st : SSEState) : SSEState := { st with buffer := [] }

/-- The state right after `setIsConnected(true)`, when the read loop
starts. -/
def startState : SSEState := { initState with connected := true }

/-! ### Concrete fixtures for the witnesses

`parseFix` is a stand-in for `JSON.parse` plus the `type`/`message`/
`result` field reads, fixed on the handful of payloads the concrete runs
use; every other payload is a parse failure (as `JSON.parse` would throw
on them). -/

def progPayload : List Char :=
  "\x7b\"type\":\"progress\",\"message\":\"starting\",\"progress\":0\x7d".data

def progUpdate : Update :=
  { type := some "progress", message := some "starting", resultTruthy := false }

def donePayload : List Char :=
  "\x7b\"type\":\"complete\",\"result\":\x7b\"drug\":\"warfarin\"\x7d\x7d".data

def doneUpdate : Update :=
  { type := some "complete", message := none, resultTruthy := true }

def doneNullPayload : List Char :=
  "\x7b\"type\":\"complete\",\"result\":null\x7d".data

def doneNullUpdate : Update :=
  { type := some "complete", message := none, resultTruthy := false }

def errPayload : List Char :=
  "\x7b\"type\":\"error\",\"message\":\"Drug not found\"\x7d".data

def errUpdate : Update :=
  { type := some "error", message := some "Drug not found", resultTruthy := false }

def mysteryPayload : List Char :=
  "\x7b\"type\":\"mystery\",\"message\":\"hi\"\x7d".data

def mysteryUpdate : Update :=
  { type := some "mystery", message := some "hi", resultTruthy := false }

def parseFix : List Char → Option Update := fun s =>
  if s = progPayload then some progUpdate
  else if s = donePayload then some doneUpdate
  else if s = doneNullPayload then some doneNullUpdate
  else if s = errPayload then some errUpdate
  else if s = mysteryPayload then some mysteryUpdate
  else none

/-- The C1 scenario text split adversarially: both frames are cut in the
middle of their JSON payloads. -/
def chunksC1 : List (List Char) :=
  ["data: \x7b\"ty".data,
   ("pe\":\"progress\",\"message\":\"starting\",\"progress\":0\x7d\n"
     ++ "data: \x7b\"type\":\"complete\",\"result\":\x7b\"drug\"").data,
   ":\"warfarin\"\x7d\x7d\n".data]

def badPayload : List Char := "\x7bnot json".data

/-- One progress frame, then a malformed-JSON line, then a further
progress frame that must never be processed; split mid-line. -/
def chunksC3 : List (List Char) :=
  [("data: \x7b\"type\":\"progress\",\"message\":\"starting\",\"progress\":0\x7d\n"
     ++ "data: \x7bnot ").data,
   ("json\n"
     ++ "data: \x7b\"type\":\"progress\",\"message\":\"starting\",\"progress\":0\x7d\n").data]

def trailingFix : List Char := "data: \x7b\"ty".data

/-- One progress frame and then a partial line, split mid-prefix. -/
def chunksC4 : List (List Char) :=
  [("data: \x7b\"type\":\"progress\",\"message\":\"starting\",\"progress\":0\x7d\nda").data,
   "ta: \x7b\"ty".data]

/-- One progress frame, an error frame, then a frame that must never be
processed; split mid-payload. -/
def chunksC7 : List (List Char) :=
  [("data: \x7b\"type\":\"progress\",\"message\":\"starting\",\"progress\":0\x7d\n"
     ++ "data: \x7b\"type\":\"err").data,
   ("or\",\"message\":\"Drug not found\"\x7d\n"
     ++ "data: \x7b\"type\":\"progress\",\"message\":\"starting\",\"progress\":0\x7d\n").data]

/-- One progress frame and a `complete` frame with a null (falsy)
`result`; split mid-payload. -/
def chunksC8 : List (List Char) :=
  [("data: \x7b\"type\":\"progress\",\"message\":\"starting\",\"progress\":0\x7d\n"
     ++ "data: \x7b\"type\":\"comp").data,
   "lete\",\"result\":null\x7d\n".data]

/-! ### Lemmas about `splitLines` -/

theorem consHead_cons (pre h : List Char) (t : List (List Char)) :
    consHead pre (h :: t) = (pre ++ h) :: t := rfl

theorem consHead_ne_nil (pre : List Char) (ls : List (List Char)) :
    consHead pre ls ≠ [] := by
  cases ls <;> simp [consHead]

theorem consHead_nil_of_ne_nil {ls : List (List Char)} (h : ls ≠ []) :
    consHead [] ls = ls := by
  cases ls with
  | nil => exact absurd rfl h
  | cons l t => simp [consHead]

theorem consHead_consHead (a b : List Char) (ls : List (List Char)) :
    consHead a (consHead b ls) = consHead (a ++ b) ls := by
  cases ls <;> simp [consHead]

theorem splitLines_cons_nl (cs : List Char) :
    splitLines ('\n' :: cs) = [] :: splitLines cs := by
  simp [splitLines]

theorem splitLines_cons_of_ne {c : Char} (hc : c ≠ '\n') (cs : List Char) :
    splitLines (c :: cs) = consHead [c] (splitLines cs) := by
  simp only [splitLines, if_neg hc]
  cases splitLines cs <;> rfl

theorem splitLines_ne_nil (l : List Char) : splitLines l ≠ [] := by
  cases l with
  | nil => simp [splitLines]
  | cons c cs =>
    by_cases hc : c = '\n'
    · subst hc; rw [splitLines_cons_nl]; simp
    · rw [splitLines_cons_of_ne hc]; exact consHead_ne_nil _ _

theorem mem_splitLines_noNL (l : List Char) :
    ∀ x ∈ splitLines l, '\n' ∉ x := by
  induction l with
  | nil =>
    intro x hx
    simp only [splitLines, List.mem_singleton] at hx
    simp [hx]
  | cons c cs ih =>
    intro x hx
    by_cases hc : c = '\n'
    · subst hc
      rw [splitLines_cons_nl] at hx
      rcases List.mem_cons.mp hx with hx | hx
      · simp [hx]
      · exact ih x hx
    · rw [splitLines_cons_of_ne hc] at hx
      rcases hs : splitLines cs with _ | ⟨l₀, ls⟩
      · exact absurd hs (splitLines_ne_nil cs)
      · rw [hs, consHead_cons] at hx
        rcases List.mem_cons.mp hx with hx | hx
        · subst hx
          intro hmem
          rcases List.mem_cons.mp hmem with hmem | hmem
          · exact hc hmem.symm
          · exact ih l₀ (hs ▸ List.mem_cons_self l₀ ls) hmem
        · exact ih x (hs ▸ List.mem_cons_of_mem l₀ hx)

theorem splitLines_of_noNL {l : List Char} (h : '\n' ∉ l) :
    splitLines l = [l] := by
  induction l with
  | nil => rfl
  | cons c cs ih =>
    simp only [List.mem_cons, not_or] at h
    rw [splitLines_cons_of_ne (fun hc => h.1 hc.symm), ih h.2, consHead_cons]
    rfl

theorem splitLines_append (a b : List Char) :
    splitLines (a ++ b) =
      (splitLines a).dropLast ++
        consHead ((splitLines a).getLastD []) (splitLines b) := by
  induction a with
  | nil =>
    simp only [List.nil_append, splitLines, List.dropLast_single]
    exact (consHead_nil_of_ne_nil (splitLines_ne_nil b)).symm
  | cons c cs ih =>
    by_cases hc : c = '\n'
    · subst hc
      rw [List.cons_append, splitLines_cons_nl, splitLines_cons_nl, ih,
        List.dropLast_cons_of_ne_nil (splitLines_ne_nil cs),
        List.getLastD_cons, List.cons_append]
    · rw [List.cons_append, splitLines_cons_of_ne hc,
        splitLines_cons_of_ne hc, ih]
      rcases hs : splitLines cs with _ | ⟨l₀, ls⟩
      · exact absurd hs (splitLines_ne_nil cs)
      · rcases ls with _ | ⟨l₁, ls'⟩
        · simp only [List.dropLast_single, List.nil_append, consHead_consHead]
          rfl
        · simp only [List.dropLast_cons_of_ne_nil (List.cons_ne_nil l₁ ls'),
            consHead_cons, List.cons_append, List.getLastD_cons]

/-! ### Lemmas about the read loop -/

theorem processLines_of_cancelled (parse : List Char → Option Update)
    (st : SSEState) (ls : List (List Char)) (h : st.cancelled = true) :
    processLines parse st ls = st := by
  cases ls with
  | nil => rfl
  | cons l ls => simp [processLines, h]

theorem processLines_append (parse : List Char → Option Update)
    (st : SSEState) (a b : List (List Char)) :
    processLines parse st (a ++ b) =
      processLines parse (processLines parse st a) b := by
  induction a generalizing st with
  | nil => rfl
  | cons l a ih =>
    by_cases h : st.cancelled
    · simp [processLines, h, processLines_of_cancelled parse st b h]
    · simp [processLines, h, ih]

theorem processLine_setBuf (parse : List Char → Option Update)
    (st : SSEState) (x l : List Char) :
    processLine parse (setBuf st x) l = setBuf (processLine parse st l) x := by
  simp only [processLine, setBuf]
  split
  · rcases parse (l.drop 6) with _ | u
    · rfl
    · by_cases h1 : u.type = some "complete"
      · simp only [if_pos h1]
        by_cases h2 : u.resultTruthy <;> simp [h2]
      · by_cases h2 : u.type = some "error" <;> simp [h1, h2]
  · rfl

theorem processLines_setBuf (parse : List Char → Option Update)
    (st : SSEState) (x : List Char) (ls : List (List Char)) :
    processLines parse (setBuf st x) ls = setBuf (processLines parse st ls) x := by
  induction ls generalizing st with
  | nil => rfl
  | cons l ls ih =>
    have hc : (setBuf st x).cancelled = st.cancelled := rfl
    cases h : st.cancelled with
    | true =>
      rw [processLines_of_cancelled parse _ _ (hc.trans h),
        processLines_of_cancelled parse st _ h]
    | false =>
      have e1 : processLines parse (setBuf st x) (l :: ls)
          = processLines parse (processLine parse (setBuf st x) l) ls := by
        simp [processLines, hc, h]
      have e2 : processLines parse st (l :: ls)
          = processLines parse (processLine parse st l) ls := by
        simp [processLines, h]
      rw [e1, e2, processLine_setBuf, ih]

theorem processLine_buffer (parse : List Char → Option Update)
    (st : SSEState) (l : List Char) :
    (processLine parse st l).buffer = st.buffer := by
  simp only [processLine]
  split
  · rcases parse (l.drop 6) with _ | u
    · rfl
    · by_cases h1 : u.type = some "complete"
      · simp only [if_pos h1]
        by_cases h2 : u.resultTruthy <;> simp [h2]
      · by_cases h2 : u.type = some "error" <;> simp [h1, h2]
  · rfl

theorem processLines_buffer (parse : List Char → Option Update)
    (st : SSEState) (ls : List (List Char)) :
    (processLines parse st ls).buffer = st.buffer := by
  induction ls generalizing st with
  | nil => rfl
  | cons l ls ih =>
    cases h : st.cancelled with
    | true => rw [processLines_of_cancelled parse st _ h]
    | false =>
      have e : processLines parse st (l :: ls)
          = processLines parse (processLine parse st l) ls := by
        simp [processLines, h]
      rw [e, ih, processLine_buffer]

theorem setBuf_buffer (st : SSEState) (x : List Char) : (setBuf st x).buffer = x :=
  rfl

theorem setBuf_setBuf (st : SSEState) (x y : List Char) :
    setBuf (setBuf st x) y = setBuf st y := rfl

theorem clearBuf_setBuf (st : SSEState) (x : List Char) :
    clearBuf (setBuf st x) = clearBuf st := rfl

theorem getLastD_mem_of_ne_nil {α : Type} {l : List α} (d : α) (h : l ≠ []) :
    l.getLastD d ∈ l := by
  cases l with
  | nil => exact absurd rfl h
  | cons x xs => exact List.mem_of_mem_getLast? rfl

theorem getLastD_append_of_ne_nil {α : Type} (x : List α) {y : List α}
    (h : y ≠ []) (d : α) : (x ++ y).getLastD d = y.getLastD d := by
  rw [List.getLastD_eq_getLast?, List.getLastD_eq_getLast?,
    List.getLast?_append_of_ne_nil x h]

theorem splitLines_getLastD_noNL (l : List Char) :
    '\n' ∉ (splitLines l).getLastD [] :=
  mem_splitLines_noNL l _ (getLastD_mem_of_ne_nil [] (splitLines_ne_nil l))

/-- `processChunk` with the buffer write floated out of the line loop
(`processLines` never touches the buffer). -/
theorem processChunk_canon (parse : List Char → Option Update)
    (st : SSEState) (c : List Char) :
    processChunk parse st c =
      setBuf (processLines parse st (splitLines (st.buffer ++ c)).dropLast)
        ((splitLines (st.buffer ++ c)).getLastD []) := by
  show processLines parse (setBuf st ((splitLines (st.buffer ++ c)).getLastD []))
      (splitLines (st.buffer ++ c)).dropLast = _
  rw [processLines_setBuf]

theorem processChunk_buffer_noNL (parse : List Char → Option Update)
    (st : SSEState) (c : List Char) :
    '\n' ∉ (processChunk parse st c).buffer := by
  rw [processChunk_canon, setBuf_buffer]
  exact splitLines_getLastD_noNL _

/-- Splitting a chunk in two is invisible to the reader: the buffer
carries the partial line across the boundary. -/
theorem processChunk_append (parse : List Char → Option Update)
    (st : SSEState) (a b : List Char) :
    processChunk parse st (a ++ b) =
      processChunk parse (processChunk parse st a) b := by
  have hga : '\n' ∉ (splitLines (st.buffer ++ a)).getLastD [] :=
    splitLines_getLastD_noNL _
  have hCH : splitLines ((splitLines (st.buffer ++ a)).getLastD [] ++ b)
      = consHead ((splitLines (st.buffer ++ a)).getLastD []) (splitLines b) := by
    rw [splitLines_append, splitLines_of_noNL hga]
    rfl
  rw [processChunk_canon parse st (a ++ b), processChunk_canon parse st a,
    processChunk_canon, setBuf_buffer, hCH, ← List.append_assoc,
    splitLines_append,
    List.dropLast_append_of_ne_nil _ (consHead_ne_nil _ _),
    getLastD_append_of_ne_nil _ (consHead_ne_nil _ _),
    processLines_append, processLines_setBuf, setBuf_setBuf]

theorem processEvents_of_cancelled (parse : List Char → Option Update)
    (st : SSEState) (evs : List ReadEvent) (h : st.cancelled = true) :
    processEvents parse st evs = st := by
  cases evs with
  | nil => rfl
  | cons e r => simp [processEvents, h]

theorem clearBuf_processChunk_of_cancelled (parse : List Char → Option Update)
    (st : SSEState) (c : List Char) (h : st.cancelled = true) :
    clearBuf (processChunk parse st c) = clearBuf st := by
  rw [processChunk_canon, processLines_of_cancelled parse st _ h, clearBuf_setBuf]

theorem processEvents_chunk_cons (parse : List Char → Option Update)
    (st : SSEState) (c : List Char) (evs : List ReadEvent)
    (h : st.cancelled = false) :
    processEvents parse st (ReadEvent.chunk c :: evs)
      = processEvents parse (processChunk parse st c) evs := by
  simp [processEvents, h]

theorem processEvents_chunks_append (parse : List Char → Option Update)
    (st : SSEState) (chunks : List (List Char)) (evs : List ReadEvent) :
    processEvents parse st (chunks.map ReadEvent.chunk ++ evs)
      = processEvents parse (processEvents parse st (chunks.map ReadEvent.chunk)) evs := by
  induction chunks generalizing st with
  | nil => rfl
  | cons c cs ih =>
    cases h : st.cancelled with
    | true =>
      rw [processEvents_of_cancelled _ _ _ h, processEvents_of_cancelled _ _ _ h,
        processEvents_of_cancelled _ _ _ h]
    | false =>
      rw [List.map_cons, List.cons_append, processEvents_chunk_cons _ _ _ _ h,
        processEvents_chunk_cons _ _ _ _ h, ih]

theorem processEvents_aborted (parse : List Char → Option Update)
    (st : SSEState) (evs : List ReadEvent) :
    processEvents parse st (ReadEvent.aborted :: evs) = st := by
  cases h : st.cancelled <;> simp [processEvents, h]

/-- Chunk-splitting invariance at the level of the whole read loop: a
sequence of chunks produces the same observable transcript as the single
chunk given by their concatenation. -/
theorem processEvents_chunks_eq_single (parse : List Char → Option Update)
    (chunks : List (List Char)) (st : SSEState)
    (hc : st.cancelled = false) (hb : '\n' ∉ st.buffer) :
    clearBuf (processEvents parse st (chunks.map ReadEvent.chunk))
      = clearBuf (processChunk parse st chunks.flatten) := by
  induction chunks generalizing st with
  | nil =>
    show clearBuf st = _
    rw [processChunk_canon, List.flatten_nil, List.append_nil,
      splitLines_of_noNL hb]
    rfl
  | cons c cs ih =>
    rw [List.map_cons, processEvents_chunk_cons _ _ _ _ hc, List.flatten_cons,
      processChunk_append]
    cases h2 : (processChunk parse st c).cancelled with
    | true =>
      rw [processEvents_of_cancelled _ _ _ h2,
        clearBuf_processChunk_of_cancelled _ _ _ h2]
    | false =>
      exact ih (processChunk parse st c) h2 (processChunk_buffer_noNL _ _ _)

/-! ### Processing one `data: ` line -/

theorem dataHeader_isPrefixOf_append (p : List Char) :
    dataHeader.isPrefixOf (dataHeader ++ p) = true := by
  rw [List.isPrefixOf_iff_prefix]
  exact List.prefix_append dataHeader p

theorem dataHeader_drop_append (p : List Char) :
    (dataHeader ++ p).drop 6 = p := by
  have h : dataHeader.length = 6 := rfl
  rw [← h, List.drop_left]

theorem noNL_dataLine {p : List Char} (h : '\n' ∉ p) :
    '\n' ∉ dataHeader ++ p := by
  intro hmem
  rcases List.mem_append.mp hmem with hd | hp
  · exact absurd hd (by decide)
  · exact h hp

/-- A line that parses to a frame whose `type` is neither `complete` nor
`error` only records the `setData` call. -/
theorem processLine_progress (parse : List Char → Option Update)
    (st : SSEState) {p : List Char} {u : Update} (hp : parse p = some u)
    (h1 : u.type ≠ some "complete") (h2 : u.type ≠ some "error") :
    processLine parse st (dataHeader ++ p)
      = { st with dataCalls := st.dataCalls ++ [u] } := by
  rw [processLine, if_pos (dataHeader_isPrefixOf_append p),
    dataHeader_drop_append, hp]
  simp only [if_neg h1, if_neg h2]

/-- A line whose payload fails to parse records the fixed parse-failure
`setError` and cancels the reader; it does not touch the callbacks. -/
theorem processLine_parse_fail (parse : List Char → Option Update)
    (st : SSEState) {p : List Char} (hp : parse p = none) :
    processLine parse st (dataHeader ++ p)
      = { st with errorCalls := st.errorCalls ++ [parseFailMsg]
                  cancelled := true } := by
  rw [processLine, if_pos (dataHeader_isPrefixOf_append p),
    dataHeader_drop_append, hp]

/-- An `error`-typed frame: `setData`, `setError`, `reader.cancel()`, and
`onError`, all with `update.message || 'Analysis failed'`. -/
theorem processLine_error_frame (parse : List Char → Option Update)
    (st : SSEState) {p : List Char} {u : Update} (hp : parse p = some u)
    (ht : u.type = some "error") :
    processLine parse st (dataHeader ++ p)
      = { st with dataCalls := st.dataCalls ++ [u]
                  errorCalls := st.errorCalls ++ [jsOr u.message defaultErrMsg]
                  errorCbCalls := st.errorCbCalls ++ [jsOr u.message defaultErrMsg]
                  cancelled := true } := by
  simp only [processLine, dataHeader_isPrefixOf_append p, if_true,
    dataHeader_drop_append, hp, ht]
  rw [if_neg (by decide : ¬(some "error" = some "complete"))]

/-- A `complete`-typed frame: `setData`, `setIsComplete(true)`,
`reader.cancel()`, and `onComplete` exactly when `update.result` is
truthy. -/
theorem processLine_complete_frame (parse : List Char → Option Update)
    (st : SSEState) {p : List Char} {u : Update} (hp : parse p = some u)
    (ht : u.type = some "complete") :
    processLine parse st (dataHeader ++ p)
      = if u.resultTruthy then
          { st with dataCalls := st.dataCalls ++ [u]
                    isComplete := true
                    cancelled := true
                    completeCbCalls := st.completeCbCalls ++ [u] }
        else
          { st with dataCalls := st.dataCalls ++ [u]
                    isComplete := true
                    cancelled := true } := by
  simp only [processLine, dataHeader_isPrefixOf_append p, if_true,
    dataHeader_drop_append, hp, ht]

/-- Running the line loop over frames none of which is terminal: every
frame is `setData`-emitted in order and nothing else happens. -/
theorem processLines_benign (parse : List Char → Option Update)
    {ps : List (List Char)} {us : List Update}
    (hf : List.Forall₂
      (fun p u => parse p = some u ∧
        u.type ≠ some "complete" ∧ u.type ≠ some "error") ps us)
    (st : SSEState) (hc : st.cancelled = false) :
    processLines parse st (ps.map (fun p => dataHeader ++ p))
      = { st with dataCalls := st.dataCalls ++ us } := by
  induction hf generalizing st with
  | nil =>
    simp only [List.map_nil, List.append_nil]
    rfl
  | @cons p u ps us hpu hf ih =>
    rw [List.map_cons]
    have e : processLines parse st
        ((dataHeader ++ p) :: ps.map (fun p => dataHeader ++ p))
        = processLines parse (processLine parse st (dataHeader ++ p))
            (ps.map (fun p => dataHeader ++ p)) := by
      simp [processLines, hc]
    rw [e, processLine_progress parse st hpu.1 hpu.2.1 hpu.2.2,
      ih { st with dataCalls := st.dataCalls ++ [u] } hc]
    simp

/-! ### Splitting well-formed frame text into lines -/

theorem splitLines_line {l : List Char} (h : '\n' ∉ l) (r : List Char) :
    splitLines (l ++ '\n' :: r) = l :: splitLines r := by
  rw [splitLines_append, splitLines_of_noNL h, splitLines_cons_nl]
  simp [consHead]

theorem splitLines_frameLine {p : List Char} (h : '\n' ∉ p) (r : List Char) :
    splitLines (frameLine p ++ r) = (dataHeader ++ p) :: splitLines r := by
  have e : frameLine p ++ r = (dataHeader ++ p) ++ '\n' :: r := by
    simp [frameLine]
  rw [e, splitLines_line (noNL_dataLine h)]

theorem splitLines_framesText {ps : List (List Char)}
    (h : ∀ p ∈ ps, '\n' ∉ p) (r : List Char) :
    splitLines (framesText ps ++ r)
      = ps.map (fun p => dataHeader ++ p) ++ splitLines r := by
  induction ps with
  | nil => simp [framesText]
  | cons p ps ih =>
    have e : framesText (p :: ps) ++ r = frameLine p ++ (framesText ps ++ r) := by
      simp [framesText]
    rw [e, splitLines_frameLine (h p (List.mem_cons_self p ps)),
      ih (fun q hq => h q (List.mem_cons_of_mem p hq)), List.map_cons,
      List.cons_append]

/-- Workhorse: processing one chunk that starts with a run of
non-terminal frames followed by arbitrary remaining text `r`. -/
theorem processChunk_frames (parse : List Char → Option Update)
    {ps : List (List Char)} {us : List Update}
    (hf : List.Forall₂
      (fun p u => parse p = some u ∧
        u.type ≠ some "complete" ∧ u.type ≠ some "error") ps us)
    (hnl : ∀ p ∈ ps, '\n' ∉ p) (st : SSEState)
    (hb : st.buffer = []) (hc : st.cancelled = false) (r : List Char) :
    processChunk parse st (framesText ps ++ r)
      = setBuf
          (processLines parse { st with dataCalls := st.dataCalls ++ us }
            (splitLines r).dropLast)
          ((splitLines r).getLastD []) := by
  rw [processChunk_canon, hb, List.nil_append, splitLines_framesText hnl,
    List.dropLast_append_of_ne_nil _ (splitLines_ne_nil r),
    getLastD_append_of_ne_nil _ (splitLines_ne_nil r),
    processLines_append, processLines_benign parse hf st hc, hb]

/-! ### Invariants of the reader -/

theorem processLine_no_data (parse : List Char → Option Update)
    (st : SSEState) {l : List Char} (h : ¬dataHeader.isPrefixOf l = true) :
    processLine parse st l = st := by
  rw [processLine, if_neg h]

theorem eq_dataLine_of_isPrefixOf {l : List Char}
    (h : dataHeader.isPrefixOf l = true) : l = dataHeader ++ l.drop 6 := by
  rcases List.isPrefixOf_iff_prefix.mp h with ⟨t, ht⟩
  rw [← ht, dataHeader_drop_append]

/-- `isComplete` can only have been set by a parsed `complete` frame,
which is also `setData`-emitted. -/
theorem processLine_inv_complete (parse : List Char → Option Update)
    (st : SSEState) (l : List Char)
    (h : st.isComplete = true → ∃ u ∈ st.dataCalls, u.type = some "complete") :
    (processLine parse st l).isComplete = true →
      ∃ u ∈ (processLine parse st l).dataCalls, u.type = some "complete" := by
  by_cases hpre : dataHeader.isPrefixOf l = true
  · have hl := eq_dataLine_of_isPrefixOf hpre
    rcases hpu : parse (l.drop 6) with _ | u
    · rw [hl, processLine_parse_fail parse st hpu]
      exact h
    · by_cases h1 : u.type = some "complete"
      · rw [hl, processLine_complete_frame parse st hpu h1]
        cases hr : u.resultTruthy with
        | true =>
          rw [if_pos rfl]
          intro _
          exact ⟨u, List.mem_append_right _ (List.mem_singleton.mpr rfl), h1⟩
        | false =>
          rw [if_neg Bool.false_ne_true]
          intro _
          exact ⟨u, List.mem_append_right _ (List.mem_singleton.mpr rfl), h1⟩
      · by_cases h2 : u.type = some "error"
        · rw [hl, processLine_error_frame parse st hpu h2]
          intro hic
          rcases h hic with ⟨v, hv, htv⟩
          exact ⟨v, List.mem_append_left _ hv, htv⟩
        · rw [hl, processLine_progress parse st hpu h1 h2]
          intro hic
          rcases h hic with ⟨v, hv, htv⟩
          exact ⟨v, List.mem_append_left _ hv, htv⟩
  · rw [processLine_no_data parse st hpre]
    exact h

theorem processLines_inv_complete (parse : List Char → Option Update)
    (ls : List (List Char)) (st : SSEState)
    (h : st.isComplete = true → ∃ u ∈ st.dataCalls, u.type = some "complete") :
    (processLines parse st ls).isComplete = true →
      ∃ u ∈ (processLines parse st ls).dataCalls, u.type = some "complete" := by
  induction ls generalizing st with
  | nil => exact h
  | cons l ls ih =>
    cases hc : st.cancelled with
    | true => rw [processLines_of_cancelled parse st _ hc]; exact h
    | false =>
      have e : processLines parse st (l :: ls)
          = processLines parse (processLine parse st l) ls := by
        simp [processLines, hc]
      rw [e]
      exact ih _ (processLine_inv_complete parse st l h)

theorem processEvents_inv_complete (parse : List Char → Option Update)
    (evs : List ReadEvent) (st : SSEState)
    (h : st.isComplete = true → ∃ u ∈ st.dataCalls, u.type = some "complete") :
    (processEvents parse st evs).isComplete = true →
      ∃ u ∈ (processEvents parse st evs).dataCalls, u.type = some "complete" := by
  induction evs generalizing st with
  | nil => exact h
  | cons e evs ih =>
    cases hc : st.cancelled with
    | true => rw [processEvents_of_cancelled parse st _ hc]; exact h
    | false =>
      cases e with
      | chunk s =>
        rw [processEvents_chunk_cons parse st s evs hc]
        refine ih _ ?_
        rw [processChunk_canon]
        exact processLines_inv_complete parse _ _ h
      | aborted => rw [processEvents_aborted]; exact h
      | netError msg =>
        have e : processEvents parse st (ReadEvent.netError msg :: evs)
            = { st with
                errorCalls := st.errorCalls ++
                  [if msg = "" then "Connection failed" else msg]
                connected := false
                errorCbCalls :=
                  if st.isComplete then st.errorCbCalls
                  else st.errorCbCalls ++
                    [if msg = "" then "Connection failed" else msg] } := by
          simp [processEvents, hc]
        rw [e]
        exact h

/-- `onComplete` is only ever invoked with a frame whose `result` is
truthy (and which is `complete`-typed). -/
theorem processLine_inv_truthy (parse : List Char → Option Update)
    (st : SSEState) (l : List Char)
    (h : ∀ u ∈ st.completeCbCalls, u.resultTruthy = true ∧ u.type = some "complete") :
    ∀ u ∈ (processLine parse st l).completeCbCalls,
      u.resultTruthy = true ∧ u.type = some "complete" := by
  by_cases hpre : dataHeader.isPrefixOf l = true
  · have hl := eq_dataLine_of_isPrefixOf hpre
    rcases hpu : parse (l.drop 6) with _ | u
    · rw [hl, processLine_parse_fail parse st hpu]
      exact h
    · by_cases h1 : u.type = some "complete"
      · rw [hl, processLine_complete_frame parse st hpu h1]
        cases hr : u.resultTruthy with
        | true =>
          rw [if_pos rfl]
          intro v hv
          rcases List.mem_append.mp hv with hv | hv
          · exact h v hv
          · rw [List.mem_singleton.mp hv]
            exact ⟨hr, h1⟩
        | false =>
          rw [if_neg Bool.false_ne_true]
          exact h
      · by_cases h2 : u.type = some "error"
        · rw [hl, processLine_error_frame parse st hpu h2]
          exact h
        · rw [hl, processLine_progress parse st hpu h1 h2]
          exact h
  · rw [processLine_no_data parse st hpre]
    exact h

theorem processLines_inv_truthy (parse : List Char → Option Update)
    (ls : List (List Char)) (st : SSEState)
    (h : ∀ u ∈ st.completeCbCalls, u.resultTruthy = true ∧ u.type = some "complete") :
    ∀ u ∈ (processLines parse st ls).completeCbCalls,
      u.resultTruthy = true ∧ u.type = some "complete" := by
  induction ls generalizing st with
  | nil => exact h
  | cons l ls ih =>
    cases hc : st.cancelled with
    | true => rw [processLines_of_cancelled parse st _ hc]; exact h
    | false =>
      have e : processLines parse st (l :: ls)
          = processLines parse (processLine parse st l) ls := by
        simp [processLines, hc]
      rw [e]
      exact ih _ (processLine_inv_truthy parse st l h)

theorem processEvents_inv_truthy (parse : List Char → Option Update)
    (evs : List ReadEvent) (st : SSEState)
    (h : ∀ u ∈ st.completeCbCalls, u.resultTruthy = true ∧ u.type = some "complete") :
    ∀ u ∈ (processEvents parse st evs).completeCbCalls,
      u.resultTruthy = true ∧ u.type = some "complete" := by
  induction evs generalizing st with
  | nil => exact h
  | cons e evs ih =>
    cases hc : st.cancelled with
    | true => rw [processEvents_of_cancelled parse st _ hc]; exact h
    | false =>
      cases e with
      | chunk s =>
        rw [processEvents_chunk_cons parse st s evs hc]
        refine ih _ ?_
        rw [processChunk_canon]
        exact processLines_inv_truthy parse _ _ h
      | aborted => rw [processEvents_aborted]; exact h
      | netError msg =>
        have e : processEvents parse st (ReadEvent.netError msg :: evs)
            = { st with
                errorCalls := st.errorCalls ++
                  [if msg = "" then "Connection failed" else msg]
                connected := false
                errorCbCalls :=
                  if st.isComplete then st.errorCbCalls
                  else st.errorCbCalls ++
                    [if msg = "" then "Connection failed" else msg] } := by
          simp [processEvents, hc]
        rw [e]
        exact h

/-- During line processing, `onError` is invoked only when an explicit
`error`-typed frame was parsed on that line. -/
theorem processLine_errorCb_source (parse : List Char → Option Update)
    (st : SSEState) (l : List Char)
    (hne : (processLine parse st l).errorCbCalls ≠ st.errorCbCalls) :
    ∃ u, parse (l.drop 6) = some u ∧ u.type = some "error" := by
  by_cases hpre : dataHeader.isPrefixOf l = true
  · have hl := eq_dataLine_of_isPrefixOf hpre
    rcases hpu : parse (l.drop 6) with _ | u
    · rw [hl, processLine_parse_fail parse st hpu] at hne
      exact absurd rfl hne
    · by_cases h1 : u.type = some "complete"
      · rw [hl, processLine_complete_frame parse st hpu h1] at hne
        split at hne
        · exact absurd rfl hne
        · exact absurd rfl hne
      · by_cases h2 : u.type = some "error"
        · exact ⟨u, rfl, h2⟩
        · rw [hl, processLine_progress parse st hpu h1 h2] at hne
          exact absurd rfl hne
  · rw [processLine_no_data parse st hpre] at hne
    exact absurd rfl hne

/-! ### Session-level helpers -/

theorem connectSSE_ok (parse : List Char → Option Update) {resp : Response}
    (h : resp.ok = true) (events : List ReadEvent) :
    connectSSE parse resp events = processEvents parse startState events := by
  rw [connectSSE, if_pos h]
  rfl

theorem progress_benign (parse : List Char → Option Update)
    {ps : List (List Char)} {us : List Update}
    (hf : List.Forall₂
      (fun p u => parse p = some u ∧ u.type = some "progress") ps us) :
    List.Forall₂
      (fun p u => parse p = some u ∧
        u.type ≠ some "complete" ∧ u.type ≠ some "error") ps us :=
  List.Forall₂.imp
    (fun _ _ h => ⟨h.1, by rw [h.2]; decide, by rw [h.2]; decide⟩) hf

/-- A whole session over chunks whose concatenated text is a run of
non-terminal frames followed by arbitrary text `r`, up to the buffer. -/
theorem run_frames_clear (parse : List Char → Option Update)
    {ps : List (List Char)} {us : List Update}
    (hf : List.Forall₂
      (fun p u => parse p = some u ∧
        u.type ≠ some "complete" ∧ u.type ≠ some "error") ps us)
    (hnl : ∀ p ∈ ps, '\n' ∉ p) (chunks : List (List Char)) (r : List Char)
    (hc : chunks.flatten = framesText ps ++ r) :
    clearBuf (processEvents parse startState (chunks.map ReadEvent.chunk))
      = clearBuf (processLines parse { startState with dataCalls := us }
          (splitLines r).dropLast) := by
  rw [processEvents_chunks_eq_single parse chunks startState rfl (by decide),
    hc, processChunk_frames parse hf hnl startState rfl rfl r, clearBuf_setBuf]
  have e : ({ startState with dataCalls := startState.dataCalls ++ us } : SSEState)
      = { startState with dataCalls := us } := by
    simp [startState, initState]
  rw [e]

theorem splitLines_frameLine_nil {t : List Char} (htn : '\n' ∉ t) :
    splitLines (frameLine t) = [dataHeader ++ t, []] := by
  have e : frameLine t = (dataHeader ++ t) ++ '\n' :: ([] : List Char) := by
    simp [frameLine]
  rw [e, splitLines_line (noNL_dataLine htn)]
  rfl

theorem processLines_single (parse : List Char → Option Update)
    (st : SSEState) (l : List Char) (hc : st.cancelled = false) :
    processLines parse st [l] = processLine parse st l := by
  simp [processLines, hc]

theorem processLines_cons_of_not_cancelled (parse : List Char → Option Update)
    (st : SSEState) (l : List Char) (ls : List (List Char))
    (hc : st.cancelled = false) :
    processLines parse st (l :: ls)
      = processLines parse (processLine parse st l) ls := by
  simp [processLines, hc]

/-- A session whose text is a run of non-terminal frames followed by a
line whose payload fails to parse, followed by anything at all. -/
theorem run_parse_fail (parse : List Char → Option Update)
    {ps : List (List Char)} {us : List Update}
    (hf : List.Forall₂
      (fun p u => parse p = some u ∧
        u.type ≠ some "complete" ∧ u.type ≠ some "error") ps us)
    (hnl : ∀ p ∈ ps, '\n' ∉ p) {b : List Char} (hb : parse b = none)
    (hbn : '\n' ∉ b) (rest : List Char) (chunks : List (List Char))
    (hc : chunks.flatten = framesText ps ++ (frameLine b ++ rest)) :
    clearBuf (processEvents parse startState (chunks.map ReadEvent.chunk))
      = clearBuf { startState with dataCalls := us
                                   errorCalls := [parseFailMsg]
                                   cancelled := true } := by
  have hg := run_frames_clear parse hf hnl chunks (frameLine b ++ rest) hc
  rw [splitLines_frameLine hbn rest,
    List.dropLast_cons_of_ne_nil (splitLines_ne_nil rest),
    processLines_cons_of_not_cancelled parse _ _ _ rfl,
    processLine_parse_fail parse _ hb,
    processLines_of_cancelled parse _ _ rfl] at hg
  exact hg.trans rfl

/-- A session whose text is a run of non-terminal frames followed by a
trailing partial line (no terminating newline). -/
theorem run_trailing (parse : List Char → Option Update)
    {ps : List (List Char)} {us : List Update}
    (hf : List.Forall₂
      (fun p u => parse p = some u ∧
        u.type ≠ some "complete" ∧ u.type ≠ some "error") ps us)
    (hnl : ∀ p ∈ ps, '\n' ∉ p) {trailing : List Char}
    (htr : '\n' ∉ trailing) (chunks : List (List Char))
    (hc : chunks.flatten = framesText ps ++ trailing) :
    clearBuf (processEvents parse startState (chunks.map ReadEvent.chunk))
      = clearBuf { startState with dataCalls := us } := by
  have hg := run_frames_clear parse hf hnl chunks trailing hc
  rw [splitLines_of_noNL htr] at hg
  exact hg.trans rfl

/-! ### The claims -/

/-- C1: for every well-formed stream text — zero or more `progress`
frames followed by exactly one terminal (`complete` or `error`) frame,
each a `data: `-prefixed JSON line ending in a newline — and every way of
splitting that text into chunks, the reader `setData`-emits every
progress frame in order, then the terminal frame, and emits nothing
after the terminal frame; in particular frames split across chunk
boundaries are reassembled exactly once. -/
theorem C1_wellformed_stream_emission (parse : List Char → Option Update)
    (ps : List (List Char)) (us : List Update) (t : List Char) (ut : Update)
    (chunks : List (List Char))
    (hf : List.Forall₂
      (fun p u => parse p = some u ∧ u.type = some "progress") ps us)
    (hnl : ∀ p ∈ ps, '\n' ∉ p)
    (ht : parse t = some ut)
    (htt : ut.type = some "complete" ∨ ut.type = some "error")
    (htn : '\n' ∉ t)
    (hc : chunks.flatten = framesText (ps ++ [t])) :
    (connectSSE parse respOK (chunks.map ReadEvent.chunk)).dataCalls
      = us ++ [ut] := by
  have hc' : chunks.flatten = framesText ps ++ frameLine t := by
    rw [hc]; simp [framesText]
  have hg := run_frames_clear parse (progress_benign parse hf) hnl chunks
    (frameLine t) hc'
  rw [splitLines_frameLine_nil htn] at hg
  have e2 : ([dataHeader ++ t, []] : List (List Char)).dropLast
      = [dataHeader ++ t] := rfl
  rw [e2, processLines_single parse _ _ rfl] at hg
  rw [connectSSE_ok parse rfl]
  rcases htt with htc | hte
  · rw [processLine_complete_frame parse _ ht htc] at hg
    have hd := congrArg SSEState.dataCalls hg
    refine hd.trans ?_
    split
    · rfl
    · rfl
  · rw [processLine_error_frame parse _ ht hte] at hg
    exact (congrArg SSEState.dataCalls hg).trans rfl

/-- C2, counterexample: a `data: ` line carrying valid JSON with the
unknown type `"mystery"` IS emitted to the consumer via `setData`
(`dataCalls` is not empty), contradicting the claim that such a frame
"is not emitted to the consumer"; the rest of the claim (no error, no
cancellation, reading continues) does hold. -/
theorem C2_counterexample :
    (connectSSE parseFix respOK
        [ReadEvent.chunk (frameLine mysteryPayload)]).dataCalls
      = [mysteryUpdate]
    ∧ (connectSSE parseFix respOK
        [ReadEvent.chunk (frameLine mysteryPayload)]).dataCalls ≠ []
    ∧ (connectSSE parseFix respOK
        [ReadEvent.chunk (frameLine mysteryPayload)]).errorCalls = []
    ∧ (connectSSE parseFix respOK
        [ReadEvent.chunk (frameLine mysteryPayload)]).cancelled = false := by
  exact ⟨by decide, by decide, by decide, by decide⟩

/-- C2 (amended): a completed `data: ` line whose payload parses as
valid JSON but whose `type` is none of `progress`/`complete`/`error` is
emitted to the consumer via `setData` exactly like a progress frame, and
nothing else happens: no error is raised, no callback is invoked, the
frame is not treated as terminal, and reading continues. -/
theorem C2_unknown_type_emitted (parse : List Char → Option Update)
    (st : SSEState) (p : List Char) (u : Update)
    (hp : parse p = some u) (_h0 : u.type ≠ some "progress")
    (h1 : u.type ≠ some "complete") (h2 : u.type ≠ some "error") :
    processLine parse st (dataHeader ++ p)
      = { st with dataCalls := st.dataCalls ++ [u] } :=
  processLine_progress parse st hp h1 h2

/-- C3: a run of progress frames followed by a `data: ` line whose
payload is not valid JSON, followed by anything at all: exactly one
parse-failure `setError` is surfaced (with the fixed message, distinct
from the pipeline default), the read is cancelled, and nothing after the
bad line is processed (the transcript does not depend on `rest`). -/
theorem C3_parse_failure_halts (parse : List Char → Option Update)
    (ps : List (List Char)) (us : List Update) (b rest : List Char)
    (chunks : List (List Char))
    (hf : List.Forall₂
      (fun p u => parse p = some u ∧ u.type = some "progress") ps us)
    (hnl : ∀ p ∈ ps, '\n' ∉ p)
    (hb : parse b = none) (hbn : '\n' ∉ b)
    (hc : chunks.flatten = framesText ps ++ frameLine b ++ rest) :
    (connectSSE parse respOK (chunks.map ReadEvent.chunk)).errorCalls
        = [parseFailMsg]
    ∧ (connectSSE parse respOK (chunks.map ReadEvent.chunk)).dataCalls = us
    ∧ (connectSSE parse respOK (chunks.map ReadEvent.chunk)).cancelled = true
    ∧ (connectSSE parse respOK (chunks.map ReadEvent.chunk)).errorCbCalls = []
    ∧ parseFailMsg ≠ defaultErrMsg := by
  have hc' : chunks.flatten = framesText ps ++ (frameLine b ++ rest) := by
    rw [hc, List.append_assoc]
  have hg := run_parse_fail parse (progress_benign parse hf) hnl hb hbn
    rest chunks hc'
  rw [connectSSE_ok parse rfl]
  exact ⟨(congrArg SSEState.errorCalls hg).trans rfl,
    (congrArg SSEState.dataCalls hg).trans rfl,
    (congrArg SSEState.cancelled hg).trans rfl,
    (congrArg SSEState.errorCbCalls hg).trans rfl,
    by decide⟩

/-- C4: aborting the session after any number of progress frames (and an
optional partial line) but before a terminal frame is silent: the
progress frames remain the only emissions, no error state is set, no
callback (`onComplete`/`onError`) is ever invoked, and whatever would
come after the abort is never read. -/
theorem C4_abort_is_silent (parse : List Char → Option Update)
    (ps : List (List Char)) (us : List Update) (trailing : List Char)
    (chunks : List (List Char)) (tailEvents : List ReadEvent)
    (hf : List.Forall₂
      (fun p u => parse p = some u ∧ u.type = some "progress") ps us)
    (hnl : ∀ p ∈ ps, '\n' ∉ p) (htr : '\n' ∉ trailing)
    (hc : chunks.flatten = framesText ps ++ trailing) :
    (connectSSE parse respOK
        (chunks.map ReadEvent.chunk ++ ReadEvent.aborted :: tailEvents)).dataCalls
      = us
    ∧ (connectSSE parse respOK
        (chunks.map ReadEvent.chunk ++ ReadEvent.aborted :: tailEvents)).errorCalls
      = []
    ∧ (connectSSE parse respOK
        (chunks.map ReadEvent.chunk ++ ReadEvent.aborted :: tailEvents)).errorCbCalls
      = []
    ∧ (connectSSE parse respOK
        (chunks.map ReadEvent.chunk ++ ReadEvent.aborted :: tailEvents)).completeCbCalls
      = []
    ∧ (connectSSE parse respOK
        (chunks.map ReadEvent.chunk ++ ReadEvent.aborted :: tailEvents)).isComplete
      = false := by
  rw [connectSSE_ok parse rfl, processEvents_chunks_append, processEvents_aborted]
  have hg := run_trailing parse (progress_benign parse hf) hnl htr chunks hc
  exact ⟨(congrArg SSEState.dataCalls hg).trans rfl,
    (congrArg SSEState.errorCalls hg).trans rfl,
    (congrArg SSEState.errorCbCalls hg).trans rfl,
    (congrArg SSEState.completeCbCalls hg).trans rfl,
    (congrArg SSEState.isComplete hg).trans rfl⟩

/-- C5: (i) `isComplete` is reached only by parsing an explicit
`complete`-typed frame (any completed session has such a frame among its
`setData` emissions); (ii) parsing a `complete` frame sets `isComplete`
and cancels the underlying read; (iii) once cancelled, the read loop
consumes no further chunks or events. -/
theorem C5_complete_only_via_complete_frame (parse : List Char → Option Update)
    (resp : Response) (events : List ReadEvent) :
    ((connectSSE parse resp events).isComplete = true →
      ∃ u ∈ (connectSSE parse resp events).dataCalls, u.type = some "complete")
    ∧ (∀ (st : SSEState) (p : List Char) (u : Update),
        parse p = some u → u.type = some "complete" →
          (processLine parse st (dataHeader ++ p)).isComplete = true
          ∧ (processLine parse st (dataHeader ++ p)).cancelled = true)
    ∧ (∀ (st : SSEState) (evs : List ReadEvent), st.cancelled = true →
        processEvents parse st evs = st) := by
  refine ⟨?_, ?_, fun st evs h => processEvents_of_cancelled parse st evs h⟩
  · rw [connectSSE]
    split
    · exact processEvents_inv_complete parse events _
        (fun h => absurd h (by decide))
    · intro h
      exact absurd h (by simp [initState])
  · intro st p u hp ht
    rw [processLine_complete_frame parse st hp ht]
    constructor
    · split
      · rfl
      · rfl
    · split
      · rfl
      · rfl

/-- C6: a non-2xx initial response surfaces the request-failed error
`` `HTTP ${status}: ${statusText}` `` (which carries the HTTP status),
invokes `onError` with it, and emits zero frames for the session. -/
theorem C6_http_error (parse : List Char → Option Update) (status : Nat)
    (statusText : String) (events : List ReadEvent) :
    (connectSSE parse { ok := false, status := status, statusText := statusText }
        events).errorCalls = [httpErrorMsg status statusText]
    ∧ (connectSSE parse { ok := false, status := status, statusText := statusText }
        events).errorCbCalls = [httpErrorMsg status statusText]
    ∧ (connectSSE parse { ok := false, status := status, statusText := statusText }
        events).dataCalls = []
    ∧ httpErrorMsg status statusText
        = "HTTP " ++ toString status ++ ": " ++ statusText :=
  ⟨rfl, rfl, rfl, rfl⟩

/-- C7: an explicit `error`-typed frame after a run of progress frames is
the terminal outcome: the frame is `setData`-emitted, its message (or the
default `'Analysis failed'` when the field is absent or empty) is set as
the error state and passed to `onError`, the read is cancelled, nothing
after the frame is processed, and the session is not marked complete
(the event is handled, not escalated). -/
theorem C7_error_frame_terminal (parse : List Char → Option Update)
    (ps : List (List Char)) (us : List Update) (t rest : List Char)
    (ut : Update) (chunks : List (List Char))
    (hf : List.Forall₂
      (fun p u => parse p = some u ∧ u.type = some "progress") ps us)
    (hnl : ∀ p ∈ ps, '\n' ∉ p)
    (ht : parse t = some ut) (hte : ut.type = some "error") (htn : '\n' ∉ t)
    (hc : chunks.flatten = framesText ps ++ frameLine t ++ rest) :
    (connectSSE parse respOK (chunks.map ReadEvent.chunk)).dataCalls
        = us ++ [ut]
    ∧ (connectSSE parse respOK (chunks.map ReadEvent.chunk)).errorCalls
        = [jsOr ut.message defaultErrMsg]
    ∧ (connectSSE parse respOK (chunks.map ReadEvent.chunk)).errorCbCalls
        = [jsOr ut.message defaultErrMsg]
    ∧ (connectSSE parse respOK (chunks.map ReadEvent.chunk)).cancelled = true
    ∧ (connectSSE parse respOK (chunks.map ReadEvent.chunk)).isComplete
        = false := by
  have hc' : chunks.flatten = framesText ps ++ (frameLine t ++ rest) := by
    rw [hc, List.append_assoc]
  have hg := run_frames_clear parse (progress_benign parse hf) hnl chunks
    (frameLine t ++ rest) hc'
  rw [splitLines_frameLine htn rest,
    List.dropLast_cons_of_ne_nil (splitLines_ne_nil rest),
    processLines_cons_of_not_cancelled parse _ _ _ rfl,
    processLine_error_frame parse _ ht hte,
    processLines_of_cancelled parse _ _ rfl] at hg
  rw [connectSSE_ok parse rfl]
  exact ⟨(congrArg SSEState.dataCalls hg).trans rfl,
    (congrArg SSEState.errorCalls hg).trans rfl,
    (congrArg SSEState.errorCbCalls hg).trans rfl,
    (congrArg SSEState.cancelled hg).trans rfl,
    (congrArg SSEState.isComplete hg).trans rfl⟩

/-- C8: (i) a `complete`-typed frame whose `result` is falsy still sets
`isComplete`, cancels the read, and is `setData`-emitted, but
`onComplete` is never invoked in that session; (ii) in any session,
`onComplete` is only ever invoked with a `complete`-typed frame carrying
a truthy `result`. -/
theorem C8_onComplete_requires_truthy_result (parse : List Char → Option Update) :
    (∀ (ps : List (List Char)) (us : List Update) (t rest : List Char)
        (ut : Update) (chunks : List (List Char)),
      List.Forall₂
        (fun p u => parse p = some u ∧ u.type = some "progress") ps us →
      (∀ p ∈ ps, '\n' ∉ p) →
      parse t = some ut → ut.type = some "complete" →
      ut.resultTruthy = false → '\n' ∉ t →
      chunks.flatten = framesText ps ++ frameLine t ++ rest →
        (connectSSE parse respOK (chunks.map ReadEvent.chunk)).isComplete = true
        ∧ (connectSSE parse respOK (chunks.map ReadEvent.chunk)).cancelled = true
        ∧ (connectSSE parse respOK (chunks.map ReadEvent.chunk)).completeCbCalls
            = []
        ∧ (connectSSE parse respOK (chunks.map ReadEvent.chunk)).dataCalls
            = us ++ [ut])
    ∧ (∀ (resp : Response) (events : List ReadEvent) (u : Update),
        u ∈ (connectSSE parse resp events).completeCbCalls →
          u.resultTruthy = true ∧ u.type = some "complete") := by
  constructor
  · intro ps us t rest ut chunks hf hnl ht htc hrt htn hc
    have hc' : chunks.flatten = framesText ps ++ (frameLine t ++ rest) := by
      rw [hc, List.append_assoc]
    have hg := run_frames_clear parse (progress_benign parse hf) hnl chunks
      (frameLine t ++ rest) hc'
    rw [splitLines_frameLine htn rest,
      List.dropLast_cons_of_ne_nil (splitLines_ne_nil rest),
      processLines_cons_of_not_cancelled parse _ _ _ rfl,
      processLine_complete_frame parse _ ht htc, hrt,
      if_neg Bool.false_ne_true,
      processLines_of_cancelled parse _ _ rfl] at hg
    rw [connectSSE_ok parse rfl]
    exact ⟨(congrArg SSEState.isComplete hg).trans rfl,
      (congrArg SSEState.cancelled hg).trans rfl,
      (congrArg SSEState.completeCbCalls hg).trans rfl,
      (congrArg SSEState.dataCalls hg).trans rfl⟩
  · intro resp events u hu
    rw [connectSSE] at hu
    split at hu
    · exact processEvents_inv_truthy parse events _
        (fun v hv => absurd hv (List.not_mem_nil v)) u hu
    · exact absurd hu (List.not_mem_nil u)

/-- C9: if the byte stream ends cleanly before any terminal frame, the
reader terminates silently: the progress frames are the only emissions,
no error state is set, `isComplete` stays false, neither callback is
invoked, and a trailing partial line is discarded unparsed. -/
theorem C9_clean_end_is_silent (parse : List Char → Option Update)
    (ps : List (List Char)) (us : List Update) (trailing : List Char)
    (chunks : List (List Char))
    (hf : List.Forall₂
      (fun p u => parse p = some u ∧ u.type = some "progress") ps us)
    (hnl : ∀ p ∈ ps, '\n' ∉ p) (htr : '\n' ∉ trailing)
    (hc : chunks.flatten = framesText ps ++ trailing) :
    (connectSSE parse respOK (chunks.map ReadEvent.chunk)).dataCalls = us
    ∧ (connectSSE parse respOK (chunks.map ReadEvent.chunk)).errorCalls = []
    ∧ (connectSSE parse respOK (chunks.map ReadEvent.chunk)).isComplete = false
    ∧ (connectSSE parse respOK (chunks.map ReadEvent.chunk)).completeCbCalls = []
    ∧ (connectSSE parse respOK (chunks.map ReadEvent.chunk)).errorCbCalls
        = [] := by
  rw [connectSSE_ok parse rfl]
  have hg := run_trailing parse (progress_benign parse hf) hnl htr chunks hc
  exact ⟨(congrArg SSEState.dataCalls hg).trans rfl,
    (congrArg SSEState.errorCalls hg).trans rfl,
    (congrArg SSEState.isComplete hg).trans rfl,
    (congrArg SSEState.completeCbCalls hg).trans rfl,
    (congrArg SSEState.errorCbCalls hg).trans rfl⟩

/-- C10: (i) a session hitting a JSON parse failure sets the hook's
error state but invokes `onError` zero times; (ii) during line
processing, `onError` can only ever be invoked by a line that parsed to
an explicit `error`-typed frame (the remaining `onError` sites in
`connectSSE`/`processEvents` are the HTTP-failure and transport-failure
paths). -/
theorem C10_parse_failure_never_calls_onError (parse : List Char → Option Update) :
    (∀ (ps : List (List Char)) (us : List Update) (b rest : List Char)
        (chunks : List (List Char)),
      List.Forall₂
        (fun p u => parse p = some u ∧ u.type = some "progress") ps us →
      (∀ p ∈ ps, '\n' ∉ p) → parse b = none → '\n' ∉ b →
      chunks.flatten = framesText ps ++ frameLine b ++ rest →
        (connectSSE parse respOK (chunks.map ReadEvent.chunk)).errorCalls
            = [parseFailMsg]
        ∧ (connectSSE parse respOK (chunks.map ReadEvent.chunk)).errorCbCalls
            = [])
    ∧ (∀ (st : SSEState) (l : List Char),
        (processLine parse st l).errorCbCalls ≠ st.errorCbCalls →
          ∃ u, parse (l.drop 6) = some u ∧ u.type = some "error") := by
  constructor
  · intro ps us b rest chunks hf hnl hb hbn hc
    have hc' : chunks.flatten = framesText ps ++ (frameLine b ++ rest) := by
      rw [hc, List.append_assoc]
    have hg := run_parse_fail parse (progress_benign parse hf) hnl hb hbn
      rest chunks hc'
    rw [connectSSE_ok parse rfl]
    exact ⟨(congrArg SSEState.errorCalls hg).trans rfl,
      (congrArg SSEState.errorCbCalls hg).trans rfl⟩
  · exact processLine_errorCb_source parse

/-! ### Witnesses -/

theorem C1_witness :
    List.Forall₂ (fun p u => parseFix p = some u ∧ u.type = some "progress")
      [progPayload] [progUpdate]
    ∧ parseFix donePayload = some doneUpdate
    ∧ (doneUpdate.type = some "complete" ∨ doneUpdate.type = some "error")
    ∧ chunksC1.flatten = framesText ([progPayload] ++ [donePayload])
    ∧ (connectSSE parseFix respOK (chunksC1.map ReadEvent.chunk)).dataCalls
        = [progUpdate] ++ [doneUpdate] :=
  ⟨List.Forall₂.cons ⟨by decide, by decide⟩ List.Forall₂.nil,
    by decide, Or.inl (by decide), by decide,
    C1_wellformed_stream_emission parseFix [progPayload] [progUpdate]
      donePayload doneUpdate chunksC1
      (List.Forall₂.cons ⟨by decide, by decide⟩ List.Forall₂.nil)
      (by decide) (by decide) (Or.inl (by decide)) (by decide) (by decide)⟩

theorem C2_witness :
    parseFix mysteryPayload = some mysteryUpdate
    ∧ mysteryUpdate.type ≠ some "progress"
    ∧ mysteryUpdate.type ≠ some "complete"
    ∧ mysteryUpdate.type ≠ some "error"
    ∧ processLine parseFix initState (dataHeader ++ mysteryPayload)
        = { initState with dataCalls := initState.dataCalls ++ [mysteryUpdate] } :=
  ⟨by decide, by decide, by decide, by decide,
    C2_unknown_type_emitted parseFix initState mysteryPayload mysteryUpdate
      (by decide) (by decide) (by decide) (by decide)⟩

theorem C3_witness :
    parseFix badPayload = none
    ∧ chunksC3.flatten
        = framesText [progPayload] ++ frameLine badPayload
            ++ frameLine progPayload
    ∧ ((connectSSE parseFix respOK (chunksC3.map ReadEvent.chunk)).errorCalls
          = [parseFailMsg]
        ∧ (connectSSE parseFix respOK (chunksC3.map ReadEvent.chunk)).dataCalls
          = [progUpdate]
        ∧ (connectSSE parseFix respOK (chunksC3.map ReadEvent.chunk)).cancelled
          = true
        ∧ (connectSSE parseFix respOK (chunksC3.map ReadEvent.chunk)).errorCbCalls
          = []
        ∧ parseFailMsg ≠ defaultErrMsg) :=
  ⟨by decide, by decide,
    C3_parse_failure_halts parseFix [progPayload] [progUpdate] badPayload
      (frameLine progPayload) chunksC3
      (List.Forall₂.cons ⟨by decide, by decide⟩ List.Forall₂.nil)
      (by decide) (by decide) (by decide) (by decide)⟩

theorem C4_witness :
    chunksC4.flatten = framesText [progPayload] ++ trailingFix
    ∧ '\n' ∉ trailingFix
    ∧ ((connectSSE parseFix respOK
          (chunksC4.map ReadEvent.chunk
            ++ ReadEvent.aborted
              :: [ReadEvent.chunk (frameLine donePayload)])).dataCalls
          = [progUpdate]
        ∧ (connectSSE parseFix respOK
            (chunksC4.map ReadEvent.chunk
              ++ ReadEvent.aborted
                :: [ReadEvent.chunk (frameLine donePayload)])).errorCalls = []
        ∧ (connectSSE parseFix respOK
            (chunksC4.map ReadEvent.chunk
              ++ ReadEvent.aborted
                :: [ReadEvent.chunk (frameLine donePayload)])).errorCbCalls = []
        ∧ (connectSSE parseFix respOK
            (chunksC4.map ReadEvent.chunk
              ++ ReadEvent.aborted
                :: [ReadEvent.chunk (frameLine donePayload)])).completeCbCalls = []
        ∧ (connectSSE parseFix respOK
            (chunksC4.map ReadEvent.chunk
              ++ ReadEvent.aborted
                :: [ReadEvent.chunk (frameLine donePayload)])).isComplete
          = false) :=
  ⟨by decide, by decide,
    C4_abort_is_silent parseFix [progPayload] [progUpdate] trailingFix
      chunksC4 [ReadEvent.chunk (frameLine donePayload)]
      (List.Forall₂.cons ⟨by decide, by decide⟩ List.Forall₂.nil)
      (by decide) (by decide) (by decide)⟩

theorem C5_witness :
    (connectSSE parseFix respOK
        [ReadEvent.chunk (frameLine donePayload)]).isComplete = true
    ∧ (∃ u ∈ (connectSSE parseFix respOK
          [ReadEvent.chunk (frameLine donePayload)]).dataCalls,
        u.type = some "complete")
    ∧ parseFix donePayload = some doneUpdate
    ∧ (processLine parseFix initState (dataHeader ++ donePayload)).isComplete
        = true
    ∧ (processLine parseFix initState (dataHeader ++ donePayload)).cancelled
        = true
    ∧ processEvents parseFix { initState with cancelled := true }
        [ReadEvent.chunk (frameLine progPayload)]
        = { initState with cancelled := true } := by
  have h := C5_complete_only_via_complete_frame parseFix respOK
    [ReadEvent.chunk (frameLine donePayload)]
  exact ⟨by decide, h.1 (by decide), by decide,
    (h.2.1 initState donePayload doneUpdate (by decide) (by decide)).1,
    (h.2.1 initState donePayload doneUpdate (by decide) (by decide)).2,
    h.2.2 { initState with cancelled := true }
      [ReadEvent.chunk (frameLine progPayload)] (by decide)⟩

theorem C7_witness :
    parseFix errPayload = some errUpdate
    ∧ errUpdate.type = some "error"
    ∧ chunksC7.flatten
        = framesText [progPayload] ++ frameLine errPayload
            ++ frameLine progPayload
    ∧ ((connectSSE parseFix respOK (chunksC7.map ReadEvent.chunk)).dataCalls
          = [progUpdate] ++ [errUpdate]
        ∧ (connectSSE parseFix respOK (chunksC7.map ReadEvent.chunk)).errorCalls
          = [jsOr errUpdate.message defaultErrMsg]
        ∧ (connectSSE parseFix respOK (chunksC7.map ReadEvent.chunk)).errorCbCalls
          = [jsOr errUpdate.message defaultErrMsg]
        ∧ (connectSSE parseFix respOK (chunksC7.map ReadEvent.chunk)).cancelled
          = true
        ∧ (connectSSE parseFix respOK (chunksC7.map ReadEvent.chunk)).isComplete
          = false) :=
  ⟨by decide, by decide, by decide,
    C7_error_frame_terminal parseFix [progPayload] [progUpdate] errPayload
      (frameLine progPayload) errUpdate chunksC7
      (List.Forall₂.cons ⟨by decide, by decide⟩ List.Forall₂.nil)
      (by decide) (by decide) (by decide) (by decide) (by decide)⟩

theorem C8_witness :
    parseFix doneNullPayload = some doneNullUpdate
    ∧ doneNullUpdate.type = some "complete"
    ∧ doneNullUpdate.resultTruthy = false
    ∧ chunksC8.flatten
        = framesText [progPayload] ++ frameLine doneNullPayload ++ []
    ∧ ((connectSSE parseFix respOK (chunksC8.map ReadEvent.chunk)).isComplete
          = true
        ∧ (connectSSE parseFix respOK (chunksC8.map ReadEvent.chunk)).cancelled
          = true
        ∧ (connectSSE parseFix respOK (chunksC8.map ReadEvent.chunk)).completeCbCalls
          = []
        ∧ (connectSSE parseFix respOK (chunksC8.map ReadEvent.chunk)).dataCalls
          = [progUpdate] ++ [doneNullUpdate])
    ∧ doneUpdate ∈ (connectSSE parseFix respOK
        [ReadEvent.chunk (frameLine donePayload)]).completeCbCalls
    ∧ (doneUpdate.resultTruthy = true ∧ doneUpdate.type = some "complete") := by
  have h := C8_onComplete_requires_truthy_result parseFix
  exact ⟨by decide, by decide, by decide, by decide,
    h.1 [progPayload] [progUpdate] doneNullPayload [] doneNullUpdate chunksC8
      (List.Forall₂.cons ⟨by decide, by decide⟩ List.Forall₂.nil)
      (by decide) (by decide) (by decide) (by decide) (by decide) (by decide),
    by decide,
    h.2 respOK [ReadEvent.chunk (frameLine donePayload)] doneUpdate (by decide)⟩

theorem C9_witness :
    chunksC4.flatten = framesText [progPayload] ++ trailingFix
    ∧ '\n' ∉ trailingFix
    ∧ ((connectSSE parseFix respOK (chunksC4.map ReadEvent.chunk)).dataCalls
          = [progUpdate]
        ∧ (connectSSE parseFix respOK (chunksC4.map ReadEvent.chunk)).errorCalls
          = []
        ∧ (connectSSE parseFix respOK (chunksC4.map ReadEvent.chunk)).isComplete
          = false
        ∧ (connectSSE parseFix respOK (chunksC4.map ReadEvent.chunk)).completeCbCalls
          = []
        ∧ (connectSSE parseFix respOK (chunksC4.map ReadEvent.chunk)).errorCbCalls
          = []) :=
  ⟨by decide, by decide,
    C9_clean_end_is_silent parseFix [progPayload] [progUpdate] trailingFix
      chunksC4
      (List.Forall₂.cons ⟨by decide, by decide⟩ List.Forall₂.nil)
      (by decide) (by decide) (by decide)⟩

theorem C10_witness :
    parseFix badPayload = none
    ∧ ((connectSSE parseFix respOK (chunksC3.map ReadEvent.chunk)).errorCalls
          = [parseFailMsg]
        ∧ (connectSSE parseFix respOK (chunksC3.map ReadEvent.chunk)).errorCbCalls
          = [])
    ∧ (processLine parseFix initState
        (dataHeader ++ errPayload)).errorCbCalls ≠ initState.errorCbCalls
    ∧ (∃ u, parseFix ((dataHeader ++ errPayload).drop 6) = some u
        ∧ u.type = some "error") := by
  have h := C10_parse_failure_never_calls_onError parseFix
  exact ⟨by decide,
    h.1 [progPayload] [progUpdate] badPayload (frameLine progPayload) chunksC3
      (List.Forall₂.cons ⟨by decide, by decide⟩ List.Forall₂.nil)
      (by decide) (by decide) (by decide) (by decide),
    by decide,
    h.2 initState (dataHeader ++ errPayload) (by decide)⟩

end SSE
